import Mathlib

/-!
Verification development for a minimal Redis-style (RESP) server.

The Rust sources are shallowly embedded here:
- `src/resp_protocol.rs` : the `RespValue` sum type (strings are modelled as
  their UTF-8 byte sequences, `List Nat`, since a Rust `String` is exactly a
  valid-UTF-8 byte sequence and two `String`s are equal iff their bytes are);
- `src/decoder.rs` : the recursive-descent decoder; the byte source is a pure
  `List Nat` of remaining bytes, a read returns the value read together with
  the remaining stream, and `tokio` read failures on an exhausted pure stream
  are the `eof` error (the only I/O failure a pure list source can produce);
  the unbounded Rust recursion is driven by an explicit fuel parameter (the
  `outOfFuel` result is a model artifact, never reached for fuels of at least
  the stream length);
- `src/server.rs` : the per-connection handler and the `PING` dispatcher;
  bytes written to the connection are accumulated in a list.
-/

/-- Error kinds of a decode attempt. In Rust all of these are distinct
`anyhow` errors: `eof` is `ErrorKind::UnexpectedEof` from a read on an
exhausted stream (truncated input), `invalidMagic` is the `bail!` for an
unrecognized type marker, `parseIntErr` is a failed `parse::<usize>()`,
`utf8Err` is a failed `String::from_utf8`. `outOfFuel` is the embedding
artifact for exhausted recursion fuel. -/
inductive DecErr : Type where
  | eof : DecErr
  | invalidMagic : Nat → DecErr
  | parseIntErr : DecErr
  | utf8Err : DecErr
  | outOfFuel : DecErr
deriving DecidableEq, Repr

/-- Embedding of `RespValue` from `src/resp_protocol.rs`; `String` payloads
are their UTF-8 byte sequences. -/
inductive RespValue : Type where
  | SimpleString : List Nat → RespValue
  | BulkString : List Nat → RespValue
  | Array : List RespValue → RespValue
deriving Repr

/-- ASCII code of the Simple String marker, `SIMPLE_STRING_MAGIC` in
`src/decoder.rs` (the byte of the + sign). -/
def SIMPLE_STRING_MAGIC : Nat := 43

/-- ASCII code of the Bulk String marker, `BULK_STRING_MAGIC` in
`src/decoder.rs` (the dollar-sign byte). -/
def BULK_STRING_MAGIC : Nat := 36

/-- ASCII code of the Array marker, `ARRAY_MAGIC` in `src/decoder.rs`
(the asterisk byte). -/
def ARRAY_MAGIC : Nat := 42

/-- Reading one byte from the pure stream: `reader.read_u8()`. On an
exhausted stream tokio reports `UnexpectedEof`. -/
def read_u8 : List Nat → Except DecErr (Nat × List Nat)
  | [] => .error .eof
  | b :: rest => .ok (b, rest)

/-- Reading exactly `n` bytes: `reader.read_exact(&mut buffer)` for a buffer
of length `n`. If fewer than `n` bytes remain, tokio reports
`UnexpectedEof`. -/
def read_exact (n : Nat) (input : List Nat) : Except DecErr (List Nat × List Nat) :=
  if n ≤ input.length then .ok (input.take n, input.drop n) else .error .eof

/-- State machine of Rust `String::from_utf8` validation (the UTF-8
well-formedness check of `core::str`), one byte per step: `pending` is how
many continuation bytes of the current code point are still owed and
`lo`/`hi` bound the next byte of that code point. At a code point boundary
(`pending = 0`) ASCII bytes stand alone; leading bytes 0xC2-0xDF, 0xE0-0xEF
and 0xF0-0xF4 owe one, two and three continuation bytes, with the
restricted second-byte ranges that exclude overlong forms, surrogates and
values above U+10FFFF; every later continuation byte must lie in
0x80-0xBF. -/
def utf8ValidAux : Nat → Nat → Nat → List Nat → Bool
  | 0, _, _, [] => true
  | _ + 1, _, _, [] => false
  | 0, _, _, b :: rest =>
    if b ≤ 127 then utf8ValidAux 0 0 0 rest
    else if 194 ≤ b ∧ b ≤ 223 then utf8ValidAux 1 128 191 rest
    else if b = 224 then utf8ValidAux 2 160 191 rest
    else if 225 ≤ b ∧ b ≤ 236 then utf8ValidAux 2 128 191 rest
    else if b = 237 then utf8ValidAux 2 128 159 rest
    else if 238 ≤ b ∧ b ≤ 239 then utf8ValidAux 2 128 191 rest
    else if b = 240 then utf8ValidAux 3 144 191 rest
    else if 241 ≤ b ∧ b ≤ 243 then utf8ValidAux 3 128 191 rest
    else if b = 244 then utf8ValidAux 3 128 143 rest
    else false
  | k + 1, lo, hi, b :: rest =>
    if lo ≤ b ∧ b ≤ hi then utf8ValidAux k 128 191 rest else false

/-- Model of Rust `String::from_utf8` validation: run the byte-at-a-time
state machine from a code point boundary; valid iff it ends at a
boundary. -/
def utf8Valid (l : List Nat) : Bool := utf8ValidAux 0 0 0 l

/-- Whether a byte list contains the 2-byte CRLF terminator sequence as a
contiguous subsequence (carriage return 13 immediately followed by line
feed 10). -/
def hasCRLF : List Nat → Bool
  | [] => false
  | [_] => false
  | a :: b :: rest => (a == 13 && b == 10) || hasCRLF (b :: rest)

/-- Loop body of `read_crlf_terminated_string` in `src/decoder.rs`: push one
byte at a time onto the buffer `acc`; as soon as the buffer ends in CRLF,
drop those two bytes and return the buffer together with the unread rest of
the stream. -/
def read_crlf_aux (acc : List Nat) : List Nat → Except DecErr (List Nat × List Nat)
  | [] => .error .eof
  | b :: rest =>
    if acc.getLast? = some 13 ∧ b = 10 then .ok (acc.dropLast, rest)
    else read_crlf_aux (acc ++ [b]) rest

/-- Embedding of `read_crlf_terminated_string` from `src/decoder.rs`: read
bytes until the buffer ends in CRLF, strip the terminator, and validate the
line as UTF-8 (`String::from_utf8`). -/
def read_crlf_terminated_string (input : List Nat) : Except DecErr (List Nat × List Nat) :=
  match read_crlf_aux [] input with
  | .error e => .error e
  | .ok (line, rest) => if utf8Valid line then .ok (line, rest) else .error .utf8Err

/-- Sign handling of Rust `str::parse::<usize>`: a single leading plus sign
(byte 43) is stripped; a minus sign is not accepted for an unsigned type and
falls through to the digit check, where it fails. -/
def stripPlus (s : List Nat) : List Nat :=
  match s with
  | b :: t => if b = 43 then t else s
  | [] => s

/-- Largest value of the 64-bit Rust `usize`. -/
def USIZE_MAX : Nat := 2 ^ 64 - 1

/-- Model of Rust `str::parse::<usize>()` on the bytes of a string: after
stripping an optional leading plus sign there must remain a nonempty run of
ASCII decimal digits whose value fits in `usize`; anything else (empty,
sign-only, any non-digit byte including a minus sign, or overflow past
`USIZE_MAX`) is a parse error, modelled as `none`. -/
def parse_usize (s : List Nat) : Option Nat :=
  let digits := stripPlus s
  if digits.isEmpty then none
  else if digits.all (fun b => decide (48 ≤ b) && decide (b ≤ 57)) then
    let v := digits.foldl (fun a b => a * 10 + (b - 48)) 0
    if v ≤ USIZE_MAX then some v else none
  else none

/-- Embedding of `decode_simple_string` from `src/decoder.rs`: the bytes up
to the terminator, as UTF-8 text, become a `SimpleString`. -/
def decode_simple_string (input : List Nat) : Except DecErr (RespValue × List Nat) :=
  match read_crlf_terminated_string input with
  | .error e => .error e
  | .ok (line, rest) => .ok (.SimpleString line, rest)

/-- Embedding of `decode_bulk_string` from `src/decoder.rs`: read a
terminator-delimited length line, parse it as `usize`, read exactly that
many payload bytes plus two terminator bytes (`vec![0; n + 2]` then
`read_exact`), truncate away the final two bytes without inspecting them,
and validate the payload as UTF-8. -/
def decode_bulk_string (input : List Nat) : Except DecErr (RespValue × List Nat) :=
  match read_crlf_terminated_string input with
  | .error e => .error e
  | .ok (line, rest) =>
    match parse_usize line with
    | none => .error .parseIntErr
    | some n =>
      match read_exact (n + 2) rest with
      | .error e => .error e
      | .ok (buffer, rest2) =>
        let payload := buffer.take n
        if utf8Valid payload then .ok (.BulkString payload, rest2) else .error .utf8Err

/-- Element loop of `decode_array` in `src/decoder.rs`: invoke the full
decode procedure `d` exactly `n` times, collecting the results in arrival
order and threading the remaining stream. -/
def decode_elems (d : List Nat → Except DecErr (RespValue × List Nat)) :
    Nat → List Nat → Except DecErr (List RespValue × List Nat)
  | 0, input => .ok ([], input)
  | n + 1, input =>
    match d input with
    | .error e => .error e
    | .ok (v, rest) =>
      match decode_elems d n rest with
      | .error e => .error e
      | .ok (vs, rest2) => .ok (v :: vs, rest2)

/-- Embedding of `decode_array` from `src/decoder.rs`: read a
terminator-delimited count line, parse it as `usize`, then run the full
decode procedure `d` that many times. -/
def decode_array (d : List Nat → Except DecErr (RespValue × List Nat))
    (input : List Nat) : Except DecErr (RespValue × List Nat) :=
  match read_crlf_terminated_string input with
  | .error e => .error e
  | .ok (line, rest) =>
    match parse_usize line with
    | none => .error .parseIntErr
    | some n =>
      match decode_elems d n rest with
      | .error e => .error e
      | .ok (elements, rest2) => .ok (.Array elements, rest2)

/-- Embedding of `decode_magic` from `src/decoder.rs`: dispatch on the type
marker byte; an unrecognized marker is the `invalid magic byte` error. The
recursive decode used for array elements is passed in as `d`. -/
def decode_magic (d : List Nat → Except DecErr (RespValue × List Nat))
    (magic : Nat) (input : List Nat) : Except DecErr (RespValue × List Nat) :=
  if magic = SIMPLE_STRING_MAGIC then decode_simple_string input
  else if magic = BULK_STRING_MAGIC then decode_bulk_string input
  else if magic = ARRAY_MAGIC then decode_array d input
  else .error (.invalidMagic magic)

/-- Embedding of `decode` from `src/decoder.rs`: read the marker byte and
dispatch. The fuel parameter bounds the recursion depth of the embedding;
Rust recurses without an explicit bound. -/
def decode : Nat → List Nat → Except DecErr (RespValue × List Nat)
  | 0, _ => .error .outOfFuel
  | fuel + 1, input =>
    match read_u8 input with
    | .error e => .error e
    | .ok (magic, rest) => decode_magic (decode fuel) magic rest

/-- Embedding of `Decoder::next` from `src/decoder.rs`: read the marker
byte and dispatch; an `UnexpectedEof` on that very first read (the pure
stream is empty) is the clean end of the value sequence, `none`. The fuel
given to nested decodes is the remaining stream length, which each nested
decode strictly shrinks, so it never runs out. -/
def Decoder.next (input : List Nat) : Option (Except DecErr (RespValue × List Nat)) :=
  match read_u8 input with
  | .error _ => none
  | .ok (magic, rest) => some (decode_magic (decode rest.length) magic rest)

/-- Decimal rendering of a natural number as ASCII digit bytes, most
significant digit first; zero renders as the single digit 0. Used by the
spec-modelled encoder for length and count prefixes. -/
def natToDecimal (n : Nat) : List Nat :=
  match n with
  | 0 => [48]
  | _ => ((Nat.digits 10 n).map (fun d => d + 48)).reverse

mutual

/-- Modelled from the spec: the repository has no encoder under `src/`, so
wire encoding follows the words of the spec, section 6, bit-exactly: a
Simple String is the marker then terminator-free text then CRLF; a Bulk
String is the dollar marker, the decimal byte length, CRLF, the payload
bytes, CRLF; an Array is the asterisk marker, the decimal element count,
CRLF, then the encodings of the elements in order. -/
def encode : RespValue → List Nat
  | .SimpleString s => SIMPLE_STRING_MAGIC :: (s ++ [13, 10])
  | .BulkString s => BULK_STRING_MAGIC :: (natToDecimal s.length ++ [13, 10] ++ s ++ [13, 10])
  | .Array vs => ARRAY_MAGIC :: (natToDecimal vs.length ++ [13, 10] ++ encodeList vs)

/-- Modelled from the spec: Arrays are the count prefix followed by the `n`
encoded values, concatenated in order. -/
def encodeList : List RespValue → List Nat
  | [] => []
  | v :: vs => encode v ++ encodeList vs

end

mutual

/-- Number of `RespValue` nodes in a value: one per variant constructor.
Each node's encoding begins with its own marker byte, so this bounds the
recursion depth the decoder needs. -/
def numNodes : RespValue → Nat
  | .SimpleString _ => 1
  | .BulkString _ => 1
  | .Array vs => 1 + numNodesList vs

/-- Total node count of a list of values. -/
def numNodesList : List RespValue → Nat
  | [] => 0
  | v :: vs => numNodes v + numNodesList vs

end

mutual

/-- Invariants a `RespValue` carries in the Rust program, plus the
round-trip side condition on Simple Strings: every string payload is a Rust
`String`, hence valid UTF-8 with a `usize` byte length, every `Vec` length
is a `usize`, and a Simple String (per the claim and section 3 of the spec)
contains no embedded CRLF terminator sequence. -/
def WFb : RespValue → Bool
  | .SimpleString s => utf8Valid s && !hasCRLF s
  | .BulkString s => utf8Valid s && decide (s.length ≤ USIZE_MAX)
  | .Array vs => decide (vs.length ≤ USIZE_MAX) && WFbList vs

/-- The invariants of `WFb`, for every value in a list. -/
def WFbList : List RespValue → Bool
  | [] => true
  | v :: vs => WFb v && WFbList vs

end

mutual

/-- Whether every string payload inside a value is valid UTF-8; the decoder
can only ever produce values satisfying this. -/
def allStringsUtf8 : RespValue → Bool
  | .SimpleString s => utf8Valid s
  | .BulkString s => utf8Valid s
  | .Array vs => allStringsUtf8List vs

/-- The `allStringsUtf8` invariant, for every value in a list. -/
def allStringsUtf8List : List RespValue → Bool
  | [] => true
  | v :: vs => allStringsUtf8 v && allStringsUtf8List vs

end

/-- Errors the connection handler of `src/server.rs` can stop with: a
decode error surfaced by the decoder, the `bail!` for a non-`BulkString`
array element, the `bail!` for a non-`Array` root value, and the fuel
artifact of the embedding. -/
inductive ServerErr : Type where
  | decodeErr : DecErr → ServerErr
  | unexpectedElement : ServerErr
  | unexpectedRoot : ServerErr
  | outOfFuel : ServerErr
deriving DecidableEq, Repr

/-- Model of Rust `str::to_uppercase()` as `process_command` in
`src/server.rs` uses it: the result is only ever compared with the four
bytes of `PING`, and the only Unicode code points whose full uppercase
mapping consists solely of letters of `PING` are the ASCII letters p, i,
n, g (with their uppercase forms mapping to themselves) together with
U+0131, Latin small dotless i, whose two UTF-8 bytes 196 177 uppercase to
`I` (73). The model therefore maps ASCII lowercase letters to uppercase,
maps the byte pair of U+0131 to 73, and leaves every other byte unchanged:
on every valid-UTF-8 command name — and the decoder only ever hands over
valid UTF-8 — the comparison with `PING` agrees with the full Unicode
uppercasing, while mappings such as U+00E0 to U+00C0 are dropped as
identity precisely because their output can never be part of `PING`. -/
def to_uppercase : List Nat → List Nat
  | [] => []
  | 196 :: 177 :: rest => 73 :: to_uppercase rest
  | b :: rest => (if 97 ≤ b ∧ b ≤ 122 then b - 32 else b) :: to_uppercase rest

/-- Follows the spec's words: recognition of a command name
case-insensitively, in the plain ASCII sense — folding only the ASCII
letters a to z to their uppercase forms. A command name is an ASCII case
variant of `PING` exactly when this fold maps it to `PING`. -/
def ascii_uppercase (s : List Nat) : List Nat :=
  s.map (fun b => if 97 ≤ b ∧ b ≤ 122 then b - 32 else b)

/-- Embedding of `process_command` from `src/server.rs`: uppercase the
command name; `PING` gets the reply bytes of the Simple String `PONG`
written back, any other command writes nothing (it is only logged). The
returned list is the bytes written to the connection. -/
def process_command (cmd : List Nat) : List Nat :=
  if to_uppercase cmd = [80, 73, 78, 71] then [43, 80, 79, 78, 71, 13, 10] else []

/-- Command loop of `handle_connection` in `src/server.rs`: each array
element must be a `BulkString` and is dispatched in order; a different
element variant stops the loop with the `unexpected command element type`
bail, keeping the bytes already written. -/
def process_commands : List RespValue → List Nat × Except ServerErr Unit
  | [] => ([], .ok ())
  | .BulkString cmd :: rest =>
    let out := process_commands rest
    (process_command cmd ++ out.1, out.2)
  | _ :: _ => ([], .error .unexpectedElement)

/-- Embedding of `handle_connection` from `src/server.rs`: repeatedly pull
the next decoded value; a clean end of stream ends the loop successfully, a
decode error or a non-`Array` root stops it with an error, and each
`Array`'s elements are dispatched as commands with the replies written in
order. Returns all bytes written together with how the loop ended; the fuel
bounds the loop iterations of the embedding. -/
def handle_connection : Nat → List Nat → List Nat × Except ServerErr Unit
  | 0, _ => ([], .error .outOfFuel)
  | fuel + 1, input =>
    match Decoder.next input with
    | none => ([], .ok ())
    | some (.error e) => ([], .error (.decodeErr e))
    | some (.ok (.Array cmds, rest)) =>
      let out := process_commands cmds
      match out.2 with
      | .ok _ =>
        let out2 := handle_connection fuel rest
        (out.1 ++ out2.1, out2.2)
      | .error e => (out.1, .error e)
    | some (.ok _) => ([], .error .unexpectedRoot)

/-- One connection worth of input run through the handler: the loop
decodes at least one byte per iteration, so a fuel of the stream length
plus one never runs out. -/
def handle_connection_run (input : List Nat) : List Nat × Except ServerErr Unit :=
  handle_connection (input.length + 1) input

/-- Follows the spec's words (section 6): a length/count prefix is a
base-10 ASCII digit sequence, that is, a nonempty run whose every byte is a
decimal digit. Written from the spec, to be compared with the parser the
source actually uses. -/
def isDigitSeq (s : List Nat) : Bool :=
  !s.isEmpty && s.all (fun b => decide (48 ≤ b) && decide (b ≤ 57))

/-- Numeric value of a most-significant-first digit-byte sequence, as the
fold inside `parse_usize` computes it. -/
def digitSeqVal (s : List Nat) : Nat := s.foldl (fun a b => a * 10 + (b - 48)) 0

/-- The prefix forms `parse_usize` accepts, spelled out declaratively: a
digit sequence, optionally preceded by a single plus sign, whose value fits
in `usize`. -/
def specPrefixOk (s : List Nat) : Prop :=
  ∃ t, (s = t ∨ s = 43 :: t) ∧ isDigitSeq t = true ∧ digitSeqVal t ≤ USIZE_MAX

theorem utf8Valid_of_ascii : ∀ l : List Nat, (∀ b ∈ l, b ≤ 127) → utf8Valid l = true := by
  intro l
  induction l with
  | nil => intro _; rfl
  | cons b rest ih =>
    intro h
    have hb : b ≤ 127 := h b (by simp)
    rw [utf8Valid] at ih ⊢
    rw [utf8ValidAux, if_pos hb]
    exact ih (fun x hx => h x (by simp [hx]))

theorem hasCRLF_append_lf (acc t : List Nat) (h : acc.getLast? = some 13) :
    hasCRLF (acc ++ 10 :: t) = true := by
  induction acc with
  | nil => simp at h
  | cons a acc' ih =>
    cases acc' with
    | nil =>
      simp at h
      subst h
      simp [hasCRLF]
    | cons a2 acc'' =>
      rw [List.getLast?_cons_cons] at h
      have hrec := ih h
      simp only [List.cons_append] at hrec ⊢
      rw [hasCRLF, hrec, Bool.or_true]

theorem read_crlf_aux_clean :
    ∀ (s acc rest : List Nat), hasCRLF (acc ++ s) = false →
      read_crlf_aux acc (s ++ 13 :: 10 :: rest) = .ok (acc ++ s, rest) := by
  intro s
  induction s with
  | nil =>
    intro acc rest _
    simp only [List.nil_append, List.append_nil]
    rw [read_crlf_aux]
    rw [if_neg (by simp)]
    rw [read_crlf_aux]
    rw [if_pos (by simp [List.getLast?_concat])]
    rw [List.dropLast_concat]
  | cons c s' ih =>
    intro acc rest h
    have hcond : ¬(acc.getLast? = some 13 ∧ c = 10) := by
      rintro ⟨h13, rfl⟩
      rw [hasCRLF_append_lf acc s' h13] at h
      exact Bool.true_eq_false.mp h
    rw [List.cons_append, read_crlf_aux, if_neg hcond]
    have harg : hasCRLF ((acc ++ [c]) ++ s') = false := by
      simpa using h
    have := ih (acc ++ [c]) rest harg
    simpa using this

theorem read_crlf_clean (s rest : List Nat) (hc : hasCRLF s = false)
    (hu : utf8Valid s = true) :
    read_crlf_terminated_string (s ++ 13 :: 10 :: rest) = .ok (s, rest) := by
  unfold read_crlf_terminated_string
  have := read_crlf_aux_clean s [] rest (by simpa using hc)
  simp only [List.nil_append] at this
  rw [this]
  simp [hu]

theorem read_crlf_utf8_fail (s rest : List Nat) (hc : hasCRLF s = false)
    (hu : utf8Valid s = false) :
    read_crlf_terminated_string (s ++ 13 :: 10 :: rest) = .error .utf8Err := by
  unfold read_crlf_terminated_string
  have := read_crlf_aux_clean s [] rest (by simpa using hc)
  simp only [List.nil_append] at this
  rw [this]
  simp [hu]

theorem natToDecimal_digit_bytes (n : Nat) : ∀ b ∈ natToDecimal n, 48 ≤ b ∧ b ≤ 57 := by
  intro b hb
  match n with
  | 0 =>
    simp [natToDecimal] at hb
    omega
  | m + 1 =>
    simp only [natToDecimal, List.mem_reverse, List.mem_map] at hb
    obtain ⟨d, hd, rfl⟩ := hb
    have := Nat.digits_lt_base (by norm_num) hd
    omega

theorem natToDecimal_ne_nil (n : Nat) : natToDecimal n ≠ [] := by
  match n with
  | 0 => simp [natToDecimal]
  | m + 1 =>
    simp only [natToDecimal]
    simp [Nat.digits_ne_nil_iff_ne_zero]

theorem hasCRLF_eq_false_of_no_cr (l : List Nat) (h : ∀ b ∈ l, b ≠ 13) :
    hasCRLF l = false := by
  induction l with
  | nil => rfl
  | cons a rest ih =>
    cases rest with
    | nil => rfl
    | cons b rest' =>
      rw [hasCRLF]
      have ha : (a == 13) = false := by simpa using h a (by simp)
      rw [ha, Bool.false_and, Bool.false_or]
      exact ih (fun x hx => h x (by simp [hx]))

theorem natToDecimal_noCRLF (n : Nat) : hasCRLF (natToDecimal n) = false :=
  hasCRLF_eq_false_of_no_cr _ (fun b hb => by have := natToDecimal_digit_bytes n b hb; omega)

theorem natToDecimal_utf8 (n : Nat) : utf8Valid (natToDecimal n) = true :=
  utf8Valid_of_ascii _ (fun b hb => by have := natToDecimal_digit_bytes n b hb; omega)

theorem foldl_horner (L : List Nat) : ∀ a : Nat,
    L.reverse.foldl (fun acc d => acc * 10 + d) a = a * 10 ^ L.length + Nat.ofDigits 10 L := by
  induction L with
  | nil => intro a; simp [Nat.ofDigits]
  | cons d L ih =>
    intro a
    rw [List.reverse_cons, List.foldl_append]
    simp only [List.foldl_cons, List.foldl_nil]
    rw [ih a, Nat.ofDigits_cons, List.length_cons, pow_succ]
    ring

theorem natToDecimal_val (n : Nat) :
    (natToDecimal n).foldl (fun a b => a * 10 + (b - 48)) 0 = n := by
  match n with
  | 0 => rfl
  | m + 1 =>
    simp only [natToDecimal]
    rw [← List.map_reverse]
    rw [List.foldl_map]
    simp only [Nat.add_sub_cancel]
    rw [foldl_horner, Nat.ofDigits_digits]
    simp

theorem parse_usize_natToDecimal (n : Nat) (h : n ≤ USIZE_MAX) :
    parse_usize (natToDecimal n) = some n := by
  have hd := natToDecimal_digit_bytes n
  have hne := natToDecimal_ne_nil n
  have hstrip : stripPlus (natToDecimal n) = natToDecimal n := by
    cases hnd : natToDecimal n with
    | nil => exact absurd hnd hne
    | cons b t =>
      have hb := hd b (by rw [hnd]; simp)
      unfold stripPlus
      dsimp only
      rw [if_neg (show ¬b = 43 by omega)]
  simp only [parse_usize]
  rw [hstrip]
  rw [if_neg (by simpa [List.isEmpty_iff] using hne)]
  rw [if_pos ?hall]
  case hall =>
    rw [List.all_eq_true]
    intro b hb
    have := hd b hb
    simp only [Bool.and_eq_true, decide_eq_true_eq]
    omega
  rw [natToDecimal_val n]
  rw [if_pos h]

theorem read_exact_append (s t : List Nat) : read_exact s.length (s ++ t) = .ok (s, t) := by
  unfold read_exact
  rw [if_pos (by simp)]
  rw [List.take_left, List.drop_left]

theorem decode_cons (fuel : Nat) (m : Nat) (t : List Nat) :
    decode (fuel + 1) (m :: t) = decode_magic (decode fuel) m t := rfl

theorem Decoder_next_nil : Decoder.next [] = none := rfl

theorem Decoder_next_cons (m : Nat) (t : List Nat) :
    Decoder.next (m :: t) = some (decode_magic (decode t.length) m t) := rfl

theorem decode_magic_simple (d : List Nat → Except DecErr (RespValue × List Nat))
    (input : List Nat) :
    decode_magic d SIMPLE_STRING_MAGIC input = decode_simple_string input := rfl

theorem decode_magic_bulk (d : List Nat → Except DecErr (RespValue × List Nat))
    (input : List Nat) :
    decode_magic d BULK_STRING_MAGIC input = decode_bulk_string input := rfl

theorem decode_magic_array (d : List Nat → Except DecErr (RespValue × List Nat))
    (input : List Nat) :
    decode_magic d ARRAY_MAGIC input = decode_array d input := rfl

theorem decode_magic_invalid (d : List Nat → Except DecErr (RespValue × List Nat))
    (m : Nat) (input : List Nat) (h1 : m ≠ SIMPLE_STRING_MAGIC)
    (h2 : m ≠ BULK_STRING_MAGIC) (h3 : m ≠ ARRAY_MAGIC) :
    decode_magic d m input = .error (.invalidMagic m) := by
  unfold decode_magic
  rw [if_neg h1, if_neg h2, if_neg h3]

theorem decode_simple_string_ok (s rest : List Nat) (hc : hasCRLF s = false)
    (hu : utf8Valid s = true) :
    decode_simple_string (s ++ 13 :: 10 :: rest) = .ok (.SimpleString s, rest) := by
  unfold decode_simple_string
  rw [read_crlf_clean s rest hc hu]

theorem decode_bulk_string_reads (payload : List Nat) (n t1 t2 : Nat) (rest : List Nat)
    (hlen : payload.length = n) (hmax : n ≤ USIZE_MAX) :
    decode_bulk_string (natToDecimal n ++ 13 :: 10 :: (payload ++ t1 :: t2 :: rest)) =
      if utf8Valid payload then .ok (.BulkString payload, rest) else .error .utf8Err := by
  unfold decode_bulk_string
  rw [read_crlf_clean _ _ (natToDecimal_noCRLF n) (natToDecimal_utf8 n)]
  dsimp only
  rw [parse_usize_natToDecimal n hmax]
  dsimp only
  have h1 : payload ++ t1 :: t2 :: rest = (payload ++ [t1, t2]) ++ rest := by simp
  have h2 : n + 2 = (payload ++ [t1, t2]).length := by simp [← hlen]
  rw [h1, h2, read_exact_append]
  dsimp only
  have h3 : (payload ++ [t1, t2]).take n = payload := by
    rw [← hlen]
    exact List.take_left ..
  rw [h3]

theorem decode_bulk_string_ok (payload : List Nat) (n t1 t2 : Nat) (rest : List Nat)
    (hlen : payload.length = n) (hmax : n ≤ USIZE_MAX) (hu : utf8Valid payload = true) :
    decode_bulk_string (natToDecimal n ++ 13 :: 10 :: (payload ++ t1 :: t2 :: rest)) =
      .ok (.BulkString payload, rest) := by
  rw [decode_bulk_string_reads payload n t1 t2 rest hlen hmax, if_pos hu]

theorem decode_array_eq (d : List Nat → Except DecErr (RespValue × List Nat)) (n : Nat)
    (tail : List Nat) (hmax : n ≤ USIZE_MAX) :
    decode_array d (natToDecimal n ++ 13 :: 10 :: tail) =
      match decode_elems d n tail with
      | .error e => .error e
      | .ok (elements, rest2) => .ok (.Array elements, rest2) := by
  unfold decode_array
  rw [read_crlf_clean _ _ (natToDecimal_noCRLF n) (natToDecimal_utf8 n)]
  dsimp only
  rw [parse_usize_natToDecimal n hmax]

theorem numNodes_pos (v : RespValue) : 1 ≤ numNodes v := by
  cases v <;> simp [numNodes]

theorem decode_elems_encodeList (fuel : Nat)
    (ih : ∀ (v : RespValue) (rest : List Nat), WFb v = true → numNodes v ≤ fuel →
      decode fuel (encode v ++ rest) = .ok (v, rest)) :
    ∀ (vs : List RespValue) (rest : List Nat), WFbList vs = true →
      numNodesList vs ≤ fuel →
      decode_elems (decode fuel) vs.length (encodeList vs ++ rest) = .ok (vs, rest) := by
  intro vs
  induction vs with
  | nil =>
    intro rest _ _
    simp [encodeList, decode_elems]
  | cons v vs ihl =>
    intro rest hwf hn
    rw [WFbList, Bool.and_eq_true] at hwf
    rw [numNodesList] at hn
    rw [encodeList, List.length_cons, List.append_assoc, decode_elems]
    rw [ih v (encodeList vs ++ rest) hwf.1 (by omega)]
    dsimp only
    rw [ihl rest hwf.2 (by omega)]

theorem decode_encode : ∀ (fuel : Nat) (v : RespValue) (rest : List Nat),
    WFb v = true → numNodes v ≤ fuel → decode fuel (encode v ++ rest) = .ok (v, rest) := by
  intro fuel
  induction fuel with
  | zero =>
    intro v rest _ hn
    have := numNodes_pos v
    omega
  | succ fuel ih =>
    intro v rest hwf hn
    match v with
    | .SimpleString s =>
      rw [WFb, Bool.and_eq_true, Bool.not_eq_true'] at hwf
      rw [encode]
      have hsh : (SIMPLE_STRING_MAGIC :: (s ++ [13, 10])) ++ rest =
          SIMPLE_STRING_MAGIC :: (s ++ 13 :: 10 :: rest) := by simp
      rw [hsh, decode_cons, decode_magic_simple]
      exact decode_simple_string_ok s rest hwf.2 hwf.1
    | .BulkString s =>
      rw [WFb, Bool.and_eq_true, decide_eq_true_eq] at hwf
      rw [encode]
      have hsh : (BULK_STRING_MAGIC ::
            (natToDecimal s.length ++ [13, 10] ++ s ++ [13, 10])) ++ rest =
          BULK_STRING_MAGIC ::
            (natToDecimal s.length ++ 13 :: 10 :: (s ++ 13 :: 10 :: rest)) := by simp
      rw [hsh, decode_cons, decode_magic_bulk]
      exact decode_bulk_string_ok s s.length 13 10 rest rfl hwf.2 hwf.1
    | .Array vs =>
      rw [WFb, Bool.and_eq_true, decide_eq_true_eq] at hwf
      rw [numNodes] at hn
      rw [encode]
      have hsh : (ARRAY_MAGIC :: (natToDecimal vs.length ++ [13, 10] ++ encodeList vs)) ++ rest =
          ARRAY_MAGIC :: (natToDecimal vs.length ++ 13 :: 10 :: (encodeList vs ++ rest)) := by
        simp
      rw [hsh, decode_cons, decode_magic_array]
      rw [decode_array_eq (decode fuel) vs.length (encodeList vs ++ rest) hwf.1]
      rw [decode_elems_encodeList fuel ih vs rest hwf.2 (by omega)]

theorem natToDecimal_length_pos (n : Nat) : 1 ≤ (natToDecimal n).length :=
  List.length_pos.mpr (natToDecimal_ne_nil n)

mutual

theorem numNodes_le_encode (v : RespValue) : numNodes v + 2 ≤ (encode v).length := by
  match v with
  | .SimpleString s => simp [numNodes, encode]
  | .BulkString s =>
    have := natToDecimal_length_pos s.length
    simp [numNodes, encode]
    omega
  | .Array vs =>
    have h := numNodesList_le_encodeList vs
    have hd := natToDecimal_length_pos vs.length
    simp [numNodes, encode]
    omega

theorem numNodesList_le_encodeList (vs : List RespValue) :
    numNodesList vs ≤ (encodeList vs).length := by
  match vs with
  | [] => simp [numNodesList, encodeList]
  | v :: vs =>
    have h1 := numNodes_le_encode v
    have h2 := numNodesList_le_encodeList vs
    simp [numNodesList, encodeList]
    omega

end

theorem encode_cons (v : RespValue) : ∃ m t, encode v = m :: t := by
  cases v <;> exact ⟨_, _, by rw [encode]⟩

theorem Decoder_next_encode (v : RespValue) (suffix : List Nat) (h : WFb v = true) :
    Decoder.next (encode v ++ suffix) = some (.ok (v, suffix)) := by
  obtain ⟨m, t, hv⟩ := encode_cons v
  have hbound : numNodes v ≤ (t ++ suffix).length + 1 := by
    have h1 := numNodes_le_encode v
    rw [hv] at h1
    simp only [List.length_cons] at h1
    simp only [List.length_append]
    omega
  calc Decoder.next (encode v ++ suffix)
      = Decoder.next (m :: (t ++ suffix)) := by rw [hv, List.cons_append]
    _ = some (decode_magic (decode (t ++ suffix).length) m (t ++ suffix)) :=
        Decoder_next_cons ..
    _ = some (decode ((t ++ suffix).length + 1) (m :: (t ++ suffix))) := rfl
    _ = some (decode ((t ++ suffix).length + 1) (encode v ++ suffix)) := by
        rw [← List.cons_append, ← hv]
    _ = some (.ok (v, suffix)) := by
        rw [decode_encode ((t ++ suffix).length + 1) v suffix h hbound]

theorem read_crlf_utf8_of_ok : ∀ (input line rest : List Nat),
    read_crlf_terminated_string input = .ok (line, rest) → utf8Valid line = true := by
  intro input line rest h
  unfold read_crlf_terminated_string at h
  split at h
  · simp at h
  · split at h
    · rename_i hl
      simp only [Except.ok.injEq, Prod.mk.injEq] at h
      obtain ⟨h1, _⟩ := h
      rwa [← h1]
    · simp at h

theorem decode_simple_string_utf8 (input : List Nat) (v : RespValue) (rest : List Nat)
    (h : decode_simple_string input = .ok (v, rest)) : allStringsUtf8 v = true := by
  unfold decode_simple_string at h
  cases heq : read_crlf_terminated_string input with
  | error e => rw [heq] at h; simp at h
  | ok p =>
    obtain ⟨l, r⟩ := p
    rw [heq] at h
    dsimp only at h
    simp only [Except.ok.injEq, Prod.mk.injEq] at h
    obtain ⟨h1, _⟩ := h
    rw [← h1, allStringsUtf8]
    exact read_crlf_utf8_of_ok input l r heq

theorem decode_bulk_string_utf8 (input : List Nat) (v : RespValue) (rest : List Nat)
    (h : decode_bulk_string input = .ok (v, rest)) : allStringsUtf8 v = true := by
  unfold decode_bulk_string at h
  cases heq : read_crlf_terminated_string input with
  | error e => rw [heq] at h; simp at h
  | ok p =>
    obtain ⟨l, r⟩ := p
    rw [heq] at h
    dsimp only at h
    cases hp : parse_usize l with
    | none => rw [hp] at h; simp at h
    | some n =>
      rw [hp] at h
      dsimp only at h
      cases hre : read_exact (n + 2) r with
      | error e => rw [hre] at h; simp at h
      | ok q =>
        obtain ⟨buffer, rest2⟩ := q
        rw [hre] at h
        dsimp only at h
        split at h
        · rename_i hu
          simp only [Except.ok.injEq, Prod.mk.injEq] at h
          obtain ⟨h1, _⟩ := h
          rw [← h1, allStringsUtf8]
          exact hu
        · simp at h

theorem decode_elems_utf8
    (d : List Nat → Except DecErr (RespValue × List Nat))
    (hd : ∀ input v rest, d input = .ok (v, rest) → allStringsUtf8 v = true) :
    ∀ (n : Nat) (input : List Nat) (vs : List RespValue) (rest : List Nat),
      decode_elems d n input = .ok (vs, rest) → allStringsUtf8List vs = true := by
  intro n
  induction n with
  | zero =>
    intro input vs rest h
    rw [decode_elems] at h
    simp only [Except.ok.injEq, Prod.mk.injEq] at h
    obtain ⟨h1, _⟩ := h
    rw [← h1]
    rfl
  | succ n ihn =>
    intro input vs rest h
    rw [decode_elems] at h
    cases hv : d input with
    | error e => rw [hv] at h; simp at h
    | ok p =>
      obtain ⟨v, r⟩ := p
      rw [hv] at h
      dsimp only at h
      cases hrest : decode_elems d n r with
      | error e => rw [hrest] at h; simp at h
      | ok q =>
        obtain ⟨vs2, rest2⟩ := q
        rw [hrest] at h
        dsimp only at h
        simp only [Except.ok.injEq, Prod.mk.injEq] at h
        obtain ⟨h1, _⟩ := h
        rw [← h1, allStringsUtf8List, Bool.and_eq_true]
        exact ⟨hd input v r hv, ihn r vs2 rest2 hrest⟩

theorem decode_array_utf8
    (d : List Nat → Except DecErr (RespValue × List Nat))
    (hd : ∀ input v rest, d input = .ok (v, rest) → allStringsUtf8 v = true)
    (input : List Nat) (v : RespValue) (rest : List Nat)
    (h : decode_array d input = .ok (v, rest)) : allStringsUtf8 v = true := by
  unfold decode_array at h
  cases heq : read_crlf_terminated_string input with
  | error e => rw [heq] at h; simp at h
  | ok p =>
    obtain ⟨l, r⟩ := p
    rw [heq] at h
    dsimp only at h
    cases hp : parse_usize l with
    | none => rw [hp] at h; simp at h
    | some n =>
      rw [hp] at h
      dsimp only at h
      cases he : decode_elems d n r with
      | error e => rw [he] at h; simp at h
      | ok q =>
        obtain ⟨elements, rest2⟩ := q
        rw [he] at h
        dsimp only at h
        simp only [Except.ok.injEq, Prod.mk.injEq] at h
        obtain ⟨h1, _⟩ := h
        rw [← h1, allStringsUtf8]
        exact decode_elems_utf8 d hd n r elements rest2 he

theorem decode_magic_utf8
    (d : List Nat → Except DecErr (RespValue × List Nat))
    (hd : ∀ input v rest, d input = .ok (v, rest) → allStringsUtf8 v = true)
    (magic : Nat) (input : List Nat) (v : RespValue) (rest : List Nat)
    (h : decode_magic d magic input = .ok (v, rest)) : allStringsUtf8 v = true := by
  unfold decode_magic at h
  split at h
  · exact decode_simple_string_utf8 input v rest h
  · split at h
    · exact decode_bulk_string_utf8 input v rest h
    · split at h
      · exact decode_array_utf8 d hd input v rest h
      · simp at h

theorem decode_utf8 : ∀ (fuel : Nat) (input : List Nat) (v : RespValue) (rest : List Nat),
    decode fuel input = .ok (v, rest) → allStringsUtf8 v = true := by
  intro fuel
  induction fuel with
  | zero =>
    intro input v rest h
    rw [decode] at h
    simp at h
  | succ fuel ih =>
    intro input v rest h
    rw [decode] at h
    cases input with
    | nil => simp [read_u8] at h
    | cons m t =>
      rw [read_u8] at h
      dsimp only at h
      exact decode_magic_utf8 (decode fuel) ih m t v rest h

theorem stripPlus_self_or_plus (s : List Nat) : s = stripPlus s ∨ s = 43 :: stripPlus s := by
  unfold stripPlus
  match s with
  | [] => exact Or.inl rfl
  | b :: t =>
    dsimp only
    by_cases hb : b = 43
    · rw [if_pos hb, hb]
      exact Or.inr rfl
    · rw [if_neg hb]
      exact Or.inl rfl

theorem stripPlus_of_head_ne (b : Nat) (t : List Nat) (h : b ≠ 43) :
    stripPlus (b :: t) = b :: t := by
  unfold stripPlus
  dsimp only
  rw [if_neg h]

theorem parse_usize_isSome_iff (s : List Nat) :
    (parse_usize s).isSome = true ↔
      ((stripPlus s).isEmpty = false ∧
       (stripPlus s).all (fun b => decide (48 ≤ b) && decide (b ≤ 57)) = true ∧
       digitSeqVal (stripPlus s) ≤ USIZE_MAX) := by
  simp only [parse_usize, digitSeqVal]
  split_ifs with h1 h2 h3 <;> simp_all

/-- C1: for every Protocol Value built from the three variants — with every
Simple String free of embedded CRLF, and with the invariants every Rust
value of the type carries (valid-UTF-8 strings, `usize` lengths) —
encoding the value to its RESP wire bytes per the wire format of the spec
and decoding those bytes yields the value back, consuming the whole
stream. -/
theorem C1_encode_decode_roundtrip (v : RespValue) (h : WFb v = true) :
    Decoder.next (encode v) = some (.ok (v, [])) := by
  have hr := Decoder_next_encode v [] h
  simpa using hr

/-- Witness for C1: a concrete Array of a Bulk String and a Simple String
round-trips. -/
theorem C1_encode_decode_roundtrip_witness :
    WFb (.Array [.BulkString [104, 101, 108, 108, 111], .SimpleString [79, 75]]) = true ∧
    Decoder.next
        (encode (.Array [.BulkString [104, 101, 108, 108, 111], .SimpleString [79, 75]])) =
      some (.ok (.Array [.BulkString [104, 101, 108, 108, 111],
                         .SimpleString [79, 75]], [])) := by
  have hw : WFb (.Array [.BulkString [104, 101, 108, 108, 111],
      .SimpleString [79, 75]]) = true := by
    simp only [WFb, WFbList]
    decide
  exact ⟨hw, C1_encode_decode_roundtrip _ hw⟩

/-- C2: a stream that is a valid wire encoding of one Protocol Value
followed by an arbitrary suffix decodes to that value, consuming exactly
the encoding's bytes (terminators included), so the stream is left
positioned at the first byte of the suffix; this holds for every declared
length and count, zero included, since `v` ranges over all well-formed
values. -/
theorem C2_decode_consumes_exactly (v : RespValue) (suffix : List Nat)
    (h : WFb v = true) :
    Decoder.next (encode v ++ suffix) = some (.ok (v, suffix)) :=
  Decoder_next_encode v suffix h

/-- Witness for C2: after a one-byte Bulk String, the decoder stands
exactly at the start of the following Simple String bytes. -/
theorem C2_decode_consumes_exactly_witness :
    WFb (.BulkString [97]) = true ∧
    Decoder.next (encode (.BulkString [97]) ++ [43, 79, 75, 13, 10]) =
      some (.ok (.BulkString [97], [43, 79, 75, 13, 10])) := by
  have hw : WFb (.BulkString [97]) = true := by
    simp only [WFb]
    decide
  exact ⟨hw, C2_decode_consumes_exactly _ [43, 79, 75, 13, 10] hw⟩

/-- C3: `Decoder::next` returns `none` exactly when zero bytes are
available at the very start of the attempt; a stream that ends inside a
value — here the bytes of `$5\r\nhel`, ending mid-payload — yields a
truncated-input decode error, never a value and never `none`. -/
theorem C3_next_none_iff_empty :
    (∀ input : List Nat, Decoder.next input = none ↔ input = []) ∧
    Decoder.next [36, 53, 13, 10, 104, 101, 108] = some (.error .eof) := by
  constructor
  · intro input
    cases input with
    | nil => simp [Decoder.next, read_u8]
    | cons b t => simp [Decoder.next, read_u8]
  · rfl

/-- Witness for C3 at the empty stream, through the theorem itself. -/
theorem C3_next_none_iff_empty_witness : Decoder.next [] = none :=
  (C3_next_none_iff_empty.1 []).mpr rfl

/-- C4: decoding a Bulk String of declared length `n` reads exactly `n`
payload bytes and then unconditionally discards exactly the next 2 bytes:
the decode succeeds and returns the payload whatever those 2 trailing
bytes are — they are quantified freely here, so malformed terminators are
not flagged. -/
theorem C4_bulk_terminator_unvalidated (n : Nat) (payload : List Nat) (t1 t2 : Nat)
    (rest : List Nat) (hlen : payload.length = n) (hu : utf8Valid payload = true)
    (hmax : n ≤ USIZE_MAX) :
    decode_bulk_string (natToDecimal n ++ 13 :: 10 :: (payload ++ t1 :: t2 :: rest)) =
      .ok (.BulkString payload, rest) :=
  decode_bulk_string_ok payload n t1 t2 rest hlen hmax hu

/-- Witness for C4: the three-byte payload `abc` framed with the trailing
bytes `XY` instead of CRLF still decodes successfully. -/
theorem C4_bulk_terminator_unvalidated_witness :
    decode_bulk_string (natToDecimal 3 ++ 13 :: 10 :: ([97, 98, 99] ++ 88 :: 89 :: [])) =
      .ok (.BulkString [97, 98, 99], []) :=
  C4_bulk_terminator_unvalidated 3 [97, 98, 99] 88 89 [] rfl (by decide) (by decide)

/-- C5 counterexample: the wire bytes of `$+5\r\nhello\r\n` decode
successfully to `BulkString "hello"` although the length prefix `+5` is
not a base-10 ASCII digit sequence — successful decodes do not accept
exactly the digit-sequence form. -/
theorem C5_counterexample_plus_prefix :
    Decoder.next [36, 43, 53, 13, 10, 104, 101, 108, 108, 111, 13, 10] =
      some (.ok (.BulkString [104, 101, 108, 108, 111], [])) ∧
    isDigitSeq [43, 53] = false := ⟨rfl, rfl⟩

/-- C5 (amended): a length/count prefix parses successfully exactly when,
after an optional single leading plus sign, it is a nonempty base-10 ASCII
digit sequence whose value fits in `usize`; every prefix line that does
not parse (non-numeric, negative, or overflowing) makes the Bulk String
and Array decoders return the integer-parse decode error. -/
theorem C5_prefix_parse_amended :
    (∀ s : List Nat, (parse_usize s).isSome = true ↔ specPrefixOk s) ∧
    (∀ (line rest : List Nat) (d : List Nat → Except DecErr (RespValue × List Nat)),
      utf8Valid line = true → hasCRLF line = false → parse_usize line = none →
      decode_bulk_string (line ++ 13 :: 10 :: rest) = .error .parseIntErr ∧
      decode_array d (line ++ 13 :: 10 :: rest) = .error .parseIntErr) := by
  constructor
  · intro s
    rw [parse_usize_isSome_iff]
    constructor
    · rintro ⟨he, hall, hval⟩
      refine ⟨stripPlus s, stripPlus_self_or_plus s, ?_, hval⟩
      simp [isDigitSeq, he, hall]
    · rintro ⟨t, hcase, hdig, hval⟩
      have hparts : t.isEmpty = false ∧
          t.all (fun b => decide (48 ≤ b) && decide (b ≤ 57)) = true := by
        simp only [isDigitSeq, Bool.and_eq_true, Bool.not_eq_true'] at hdig
        exact hdig
      have hsp : stripPlus s = t := by
        rcases hcase with rfl | rfl
        · cases s with
          | nil => simp at hparts
          | cons b tt =>
            have hb : 48 ≤ b ∧ b ≤ 57 := by
              have h2 := hparts.2
              rw [List.all_cons, Bool.and_eq_true] at h2
              simpa using h2.1
            exact stripPlus_of_head_ne b tt (by omega)
        · unfold stripPlus
          dsimp only
          rw [if_pos rfl]
      rw [hsp]
      exact ⟨hparts.1, hparts.2, hval⟩
  · intro line rest d hu hc hp
    constructor
    · unfold decode_bulk_string
      rw [read_crlf_clean line rest hc hu]
      dsimp only
      rw [hp]
    · unfold decode_array
      rw [read_crlf_clean line rest hc hu]
      dsimp only
      rw [hp]

/-- Witness for the amended C5: the non-numeric prefix line `a` makes both
the Bulk String and the Array decoder fail with the integer-parse error. -/
theorem C5_prefix_parse_amended_witness :
    decode_bulk_string ([97] ++ 13 :: 10 :: []) = .error .parseIntErr ∧
    decode_array (decode 0) ([97] ++ 13 :: 10 :: []) = .error .parseIntErr :=
  C5_prefix_parse_amended.2 [97] [] (decode 0) (by decide) (by decide) (by decide)

/-- C6: decoding an Array reads a terminator-delimited decimal count `n`
and then runs the full decode procedure exactly `n` times, returning the
`n` results in arrival order with the remaining stream untouched beyond
them; for `n = 0` it returns an empty Array having read nothing past the
count's terminator. -/
theorem C6_array_count_then_elements (fuel : Nat) (vs : List RespValue)
    (rest : List Nat) (hwf : WFbList vs = true) (hmax : vs.length ≤ USIZE_MAX)
    (hfuel : numNodesList vs ≤ fuel) :
    decode_array (decode fuel)
        (natToDecimal vs.length ++ 13 :: 10 :: (encodeList vs ++ rest)) =
      .ok (.Array vs, rest) := by
  rw [decode_array_eq (decode fuel) vs.length (encodeList vs ++ rest) hmax]
  rw [decode_elems_encodeList fuel (decode_encode fuel) vs rest hwf hfuel]

/-- Witness for C6 at count zero: the empty Array is returned and the
byte after the count's terminator is still unread. -/
theorem C6_array_count_then_elements_witness :
    decode_array (decode 0)
        (natToDecimal (List.length ([] : List RespValue)) ++ 13 :: 10 ::
          (encodeList [] ++ [55])) =
      .ok (.Array [], [55]) :=
  C6_array_count_then_elements 0 [] [55] (by simp [WFbList]) (by decide)
    (by simp [numNodesList])

/-- C7: a stream whose first byte is none of the three markers (43 for
plus, 36 for dollar, 42 for asterisk) makes the decode attempt fail with
the invalid-magic-byte framing error, never a value. -/
theorem C7_invalid_magic_error (b : Nat) (rest : List Nat)
    (h1 : b ≠ SIMPLE_STRING_MAGIC) (h2 : b ≠ BULK_STRING_MAGIC)
    (h3 : b ≠ ARRAY_MAGIC) :
    Decoder.next (b :: rest) = some (.error (.invalidMagic b)) := by
  rw [Decoder_next_cons, decode_magic_invalid _ _ _ h1 h2 h3]

/-- Witness for C7 at the bytes of `@foo\r\n`. -/
theorem C7_invalid_magic_error_witness :
    Decoder.next (64 :: [102, 111, 111, 13, 10]) = some (.error (.invalidMagic 64)) :=
  C7_invalid_magic_error 64 [102, 111, 111, 13, 10] (by decide) (by decide) (by decide)

/-- C8: a Simple String line or a Bulk String payload whose bytes are not
valid UTF-8 makes the decode fail with the UTF-8 decode error; moreover
every value the decoder ever returns successfully contains only valid
UTF-8 text, so it never silently substitutes characters. -/
theorem C8_utf8_validation :
    (∀ s rest : List Nat, hasCRLF s = false → utf8Valid s = false →
      Decoder.next (SIMPLE_STRING_MAGIC :: (s ++ 13 :: 10 :: rest)) =
        some (.error .utf8Err)) ∧
    (∀ (n : Nat) (payload rest : List Nat), payload.length = n → n ≤ USIZE_MAX →
      utf8Valid payload = false →
      decode_bulk_string (natToDecimal n ++ 13 :: 10 :: (payload ++ 13 :: 10 :: rest)) =
        .error .utf8Err) ∧
    (∀ (fuel : Nat) (input : List Nat) (v : RespValue) (rest : List Nat),
      decode fuel input = .ok (v, rest) → allStringsUtf8 v = true) := by
  refine ⟨?_, ?_, decode_utf8⟩
  · intro s rest hc hu
    rw [Decoder_next_cons, decode_magic_simple]
    unfold decode_simple_string
    rw [read_crlf_utf8_fail s rest hc hu]
  · intro n payload rest hlen hmax hu
    rw [decode_bulk_string_reads payload n 13 10 rest hlen hmax, hu]
    simp

/-- Witness for C8: the lone byte 255 is not UTF-8 and fails a Simple
String decode. -/
theorem C8_utf8_validation_witness :
    Decoder.next (SIMPLE_STRING_MAGIC :: ([255] ++ 13 :: 10 :: [])) =
      some (.error .utf8Err) :=
  C8_utf8_validation.1 [255] [] (by decide) (by decide)

/-- C9 counterexample: the five-byte command name `pıng` — bytes 112, 196,
177, 110, 103, using U+0131 Latin small dotless i — is not a case variant
of `PING` (its ASCII case fold differs from `PING`), yet it receives the
full `+PONG\r\n` reply, because Unicode uppercasing maps dotless i to `I`.
So it is false that every command name other than a case variant of
`PING` produces no protocol reply bytes. -/
theorem C9_counterexample_dotless_i :
    process_command [112, 196, 177, 110, 103] = [43, 80, 79, 78, 71, 13, 10] ∧
    ascii_uppercase [112, 196, 177, 110, 103] ≠ [80, 73, 78, 71] :=
  ⟨rfl, by decide⟩

/-- C9 (amended): the connection handler fed the bytes of
`*1\r\n$4\r\nPING\r\n` writes exactly the bytes of `+PONG\r\n`; the
dispatcher recognizes a command by Unicode-uppercasing its name and
comparing with `PING` — which covers every ASCII case variant but also
the dotless-i names such as `pıng` — and every command name whose
uppercased form is not `PING` produces no reply bytes at all (it is only
logged). -/
theorem C9_ping_pong_amended :
    handle_connection_run [42, 49, 13, 10, 36, 52, 13, 10, 80, 73, 78, 71, 13, 10] =
      ([43, 80, 79, 78, 71, 13, 10], .ok ()) ∧
    (∀ cmd : List Nat, to_uppercase cmd = [80, 73, 78, 71] →
      process_command cmd = [43, 80, 79, 78, 71, 13, 10]) ∧
    (∀ cmd : List Nat, to_uppercase cmd ≠ [80, 73, 78, 71] →
      process_command cmd = []) := by
  refine ⟨rfl, ?_, ?_⟩
  · intro cmd h
    unfold process_command
    rw [if_pos h]
  · intro cmd h
    unfold process_command
    rw [if_neg h]

/-- Witness for the amended C9: lowercase `ping` and dotless-i `pıng` are
both answered with `+PONG\r\n`, while `ECHO` produces no reply bytes. -/
theorem C9_ping_pong_amended_witness :
    process_command [112, 105, 110, 103] = [43, 80, 79, 78, 71, 13, 10] ∧
    process_command [112, 196, 177, 110, 103] = [43, 80, 79, 78, 71, 13, 10] ∧
    process_command [69, 67, 72, 79] = [] :=
  ⟨C9_ping_pong_amended.2.1 [112, 105, 110, 103] (by decide),
   C9_ping_pong_amended.2.1 [112, 196, 177, 110, 103] (by decide),
   C9_ping_pong_amended.2.2 [69, 67, 72, 79] (by decide)⟩

/-- C10: Bulk String framing is by declared length only, never by
terminator scanning: any `n`-byte valid-UTF-8 payload — embedded CRLF
sequences included, since no CRLF-freeness is assumed here — wrapped as
dollar marker, decimal `n`, CRLF, payload, CRLF decodes to exactly that
payload with its embedded CRLF bytes preserved. -/
theorem C10_bulk_embedded_crlf (n : Nat) (payload rest : List Nat)
    (hlen : payload.length = n) (hu : utf8Valid payload = true)
    (hmax : n ≤ USIZE_MAX) :
    Decoder.next (BULK_STRING_MAGIC ::
        (natToDecimal n ++ 13 :: 10 :: (payload ++ 13 :: 10 :: rest))) =
      some (.ok (.BulkString payload, rest)) := by
  rw [Decoder_next_cons, decode_magic_bulk]
  rw [decode_bulk_string_ok payload n 13 10 rest hlen hmax hu]

/-- Witness for C10: the four-byte payload `a\r\nb`, whose middle bytes
are an embedded CRLF, is preserved verbatim. -/
theorem C10_bulk_embedded_crlf_witness :
    Decoder.next (BULK_STRING_MAGIC ::
        (natToDecimal 4 ++ 13 :: 10 :: ([97, 13, 10, 98] ++ 13 :: 10 :: []))) =
      some (.ok (.BulkString [97, 13, 10, 98], [])) :=
  C10_bulk_embedded_crlf 4 [97, 13, 10, 98] [] rfl (by decide) (by decide)
